import Mathlib

/-!
Verification of the content-addressed sync engine in
`01-webotron/webotron/bucket.py` (class `BucketManager`).

Byte streams are modelled as `List Nat` (each element a byte value),
Python dicts as insertion-ordered association lists, and the S3 calls
(`bucket.upload_file`, `create_bucket`, paginated `list_objects_v2`) as
explicit data that the embedded functions consume or emit.
-/

set_option maxRecDepth 8000

namespace Webotron

/-! ### MD5 (model of `hashlib.md5`, RFC 1321)

`bucket.py` delegates digesting to the standard library's `hashlib.md5`.
We implement the real algorithm over byte lists so that concrete digest
values (e.g. for the one-byte file `"a"`) can be checked by the kernel. -/

/-- `2^32`, the word modulus of MD5. -/
def M32 : Nat := 4294967296

/-- Left-rotation of a 32-bit word. -/
def rotl32 (x n : Nat) : Nat :=
  ((x <<< n) ||| (x >>> (32 - n))) % M32

/-- The 64 MD5 round constants `K[i] = floor(2^32 * |sin(i+1)|)`. -/
def md5K : List Nat :=
  [0xd76aa478, 0xe8c7b756, 0x242070db, 0xc1bdceee,
   0xf57c0faf, 0x4787c62a, 0xa8304613, 0xfd469501,
   0x698098d8, 0x8b44f7af, 0xffff5bb1, 0x895cd7be,
   0x6b901122, 0xfd987193, 0xa679438e, 0x49b40821,
   0xf61e2562, 0xc040b340, 0x265e5a51, 0xe9b6c7aa,
   0xd62f105d, 0x02441453, 0xd8a1e681, 0xe7d3fbc8,
   0x21e1cde6, 0xc33707d6, 0xf4d50d87, 0x455a14ed,
   0xa9e3e905, 0xfcefa3f8, 0x676f02d9, 0x8d2a4c8a,
   0xfffa3942, 0x8771f681, 0x6d9d6122, 0xfde5380c,
   0xa4beea44, 0x4bdecfa9, 0xf6bb4b60, 0xbebfbc70,
   0x289b7ec6, 0xeaa127fa, 0xd4ef3085, 0x04881d05,
   0xd9d4d039, 0xe6db99e5, 0x1fa27cf8, 0xc4ac5665,
   0xf4292244, 0x432aff97, 0xab9423a7, 0xfc93a039,
   0x655b59c3, 0x8f0ccc92, 0xffeff47d, 0x85845dd1,
   0x6fa87e4f, 0xfe2ce6e0, 0xa3014314, 0x4e0811a1,
   0xf7537e82, 0xbd3af235, 0x2ad7d2bb, 0xeb86d391]

/-- The 64 per-round left-rotation amounts. -/
def md5S : List Nat :=
  [7, 12, 17, 22, 7, 12, 17, 22, 7, 12, 17, 22, 7, 12, 17, 22,
   5,  9, 14, 20, 5,  9, 14, 20, 5,  9, 14, 20, 5,  9, 14, 20,
   4, 11, 16, 23, 4, 11, 16, 23, 4, 11, 16, 23, 4, 11, 16, 23,
   6, 10, 15, 21, 6, 10, 15, 21, 6, 10, 15, 21, 6, 10, 15, 21]

/-- The round-dependent boolean function of MD5. -/
def md5F (i b c d : Nat) : Nat :=
  if i < 16 then (b &&& c) ||| ((0xffffffff ^^^ b) &&& d)
  else if i < 32 then (d &&& b) ||| ((0xffffffff ^^^ d) &&& c)
  else if i < 48 then b ^^^ c ^^^ d
  else c ^^^ (b ||| (0xffffffff ^^^ d))

/-- The round-dependent message-word index of MD5. -/
def md5G (i : Nat) : Nat :=
  if i < 16 then i
  else if i < 32 then (5 * i + 1) % 16
  else if i < 48 then (3 * i + 5) % 16
  else (7 * i) % 16

/-- One MD5 round on state `(a, b, c, d)` with message words `M`. -/
def md5Round (M : List Nat) (st : Nat × Nat × Nat × Nat) (i : Nat) :
    Nat × Nat × Nat × Nat :=
  let a := st.1
  let b := st.2.1
  let c := st.2.2.1
  let d := st.2.2.2
  let f := (md5F i b c d + a + md5K.getD i 0 + M.getD (md5G i) 0) % M32
  (d, (b + rotl32 f (md5S.getD i 0)) % M32, b, c)

/-- Process one 64-byte block (given as 16 words) into the running state. -/
def md5Block (st0 : Nat × Nat × Nat × Nat) (M : List Nat) :
    Nat × Nat × Nat × Nat :=
  let st := (List.range 64).foldl (md5Round M) st0
  ((st0.1 + st.1) % M32, (st0.2.1 + st.2.1) % M32,
   (st0.2.2.1 + st.2.2.1) % M32, (st0.2.2.2 + st.2.2.2) % M32)

/-- `count` little-endian bytes of `n`. -/
def toLEBytes (n count : Nat) : List Nat :=
  (List.range count).map (fun i => (n >>> (8 * i)) % 256)

/-- MD5 padding: `0x80`, zeros to 56 mod 64, then the 64-bit bit length. -/
def md5Pad (msg : List Nat) : List Nat :=
  let len := msg.length
  let k := (120 - (len + 1) % 64) % 64
  msg ++ [128] ++ List.replicate k 0 ++ toLEBytes (len * 8 % (2 ^ 64)) 8

/-- Group consecutive 4-byte little-endian words. -/
def bytesToWords : List Nat → List Nat
  | b0 :: b1 :: b2 :: b3 :: rest =>
      (b0 + b1 * 256 + b2 * 65536 + b3 * 16777216) :: bytesToWords rest
  | _ => []

/-- Split a list into consecutive chunks of `n` elements (the last may be
shorter); `fuel` bounds the recursion and is enough when
`fuel ≥ s.length` and `0 < n`. Structural in `fuel` so the kernel can
evaluate it. -/
def chunksOfAux (n : Nat) : Nat → List Nat → List (List Nat)
  | _, [] => []
  | 0, _ => []
  | fuel + 1, s => s.take n :: chunksOfAux n fuel (s.drop n)

/-- Split `s` into consecutive chunks of at most `n` bytes. For
`n = CHUNK_SIZE` this is exactly the chunk sequence produced by the
`f.read(self.CHUNK_SIZE)` loop of `gen_etag`. -/
def chunksOf (n : Nat) (s : List Nat) : List (List Nat) :=
  chunksOfAux n s.length s

/-- The full MD5 digest: 16 bytes. -/
def md5 (msg : List Nat) : List Nat :=
  let blocks := chunksOf 64 (md5Pad msg)
  let st := blocks.foldl (fun st blk => md5Block st (bytesToWords blk))
    (0x67452301, 0xefcdab89, 0x98badcfe, 0x10325476)
  toLEBytes st.1 4 ++ toLEBytes st.2.1 4 ++ toLEBytes st.2.2.1 4 ++
    toLEBytes st.2.2.2 4

/-- One lowercase hex digit. -/
def hexChar (n : Nat) : Char :=
  if n < 10 then Char.ofNat (48 + n) else Char.ofNat (87 + n)

/-- Two lowercase hex digits of a byte. -/
def byteToHex (b : Nat) : String :=
  String.mk [hexChar (b / 16), hexChar (b % 16)]

/-- Lowercase hex encoding of a byte list: `hash.hexdigest()` applied to
a digest. -/
def hexdigest (bs : List Nat) : String :=
  String.join (bs.map byteToHex)

/-! ### The hasher of `bucket.py` -/

/-- `BucketManager.CHUNK_SIZE`. -/
def CHUNK_SIZE : Nat := 8388608

/-- `BucketManager.hash_data`: builds an md5 hash object over `data`.
A hash object is identified with its raw 16-byte digest; `.digest()` is
the identity on this model and `.hexdigest()` is `hexdigest`. -/
def hash_data (data : List Nat) : List Nat :=
  md5 data

/-- `functools.reduce(lambda x, y: x + y, digests)`: left fold of
concatenation over a nonempty list (Python's `reduce` with no initial
value raises on `[]`; `gen_etag` only reaches it with ≥ 2 digests). -/
def reduceConcat : List (List Nat) → List Nat
  | [] => []
  | d :: ds => ds.foldl (fun x y => x ++ y) d

/-- `BucketManager.gen_etag`: the chunk loop reads `CHUNK_SIZE`-byte
chunks until end of stream; then `None` for no chunk, the quoted hex
digest for one chunk, and the quoted hex digest of the concatenated raw
chunk digests with a `-<count>` suffix otherwise. -/
def gen_etag (file : List Nat) : Option String :=
  let hashes := (chunksOf CHUNK_SIZE file).map hash_data
  if hashes.length = 0 then
    none
  else if hashes.length = 1 then
    some ("\"" ++ hexdigest (hashes.headD []) ++ "\"")
  else
    some ("\"" ++ hexdigest (hash_data (reduceConcat hashes)) ++ "-" ++
      toString hashes.length ++ "\"")

/-! ### Python dict model

`self.manifest` is a Python `dict`; we model dicts with string keys as
insertion-ordered association lists: assignment replaces an existing
entry in place and otherwise appends. -/

/-- `d.get(k)` as an `Option`: the value of the first (unique) entry. -/
def dictFind? {α : Type} : List (String × α) → String → Option α
  | [], _ => none
  | (k', v) :: rest, k => if k' = k then some v else dictFind? rest k

/-- `d.get(k, dflt)`. -/
def dictGet {α : Type} (m : List (String × α)) (k : String) (dflt : α) : α :=
  (dictFind? m k).getD dflt

/-- `d[k] = v`: replace in place if present, else append. -/
def dictInsert {α : Type} : List (String × α) → String → α → List (String × α)
  | [], k, v => [(k, v)]
  | (k', v') :: rest, k, v =>
      if k' = k then (k, v) :: rest else (k', v') :: dictInsert rest k v

/-! ### `mimetypes.guess_type` model

`upload_file` derives the content type with
`mimetypes.guess_type(key)[0] or 'text/html'`. The standard library
resolves the key's filename extension (the part of the last path
component from its last dot, ignoring leading dots), lowercases it and
looks it up in an extension table; unknown extensions give `None`. We
model that mechanism with a representative table (the stdlib's
suffix/encoding maps for compressed files are omitted; they do not
affect the properties proved here). -/

/-- Number of leading `'.'` characters. -/
def leadingDots : List Char → Nat
  | c :: rest => if c = '.' then leadingDots rest + 1 else 0
  | [] => 0

/-- Index of the last `'.'`, if any. -/
def lastDotIdx (cs : List Char) : Option Nat :=
  (List.range cs.length).foldl
    (fun acc i => if cs.getD i ' ' = '.' then some i else acc) none

/-- `os.path.splitext` extension of a single path component: from the
last dot, unless that dot lies in the leading run of dots. -/
def extOfBase (cs : List Char) : List Char :=
  match lastDotIdx cs with
  | some i => if leadingDots cs ≤ i then cs.drop i else []
  | none => []

/-- The characters after the last `'/'` (the whole list when there is
none): the final path component of a key. -/
def afterLastSlash (cs : List Char) : List Char :=
  cs.foldl (fun acc c => if c = '/' then [] else acc ++ [c]) []

/-- The filename extension of a key: extension of its last
`/`-separated component, lowercased as `mimetypes` does. -/
def extOf (key : String) : String :=
  String.mk ((extOfBase (afterLastSlash key.toList)).map Char.toLower)

/-- Representative slice of `mimetypes.types_map`. -/
def types_map : List (String × String) :=
  [(".html", "text/html"), (".htm", "text/html"), (".txt", "text/plain"),
   (".css", "text/css"), (".js", "application/javascript"),
   (".json", "application/json"), (".png", "image/png"),
   (".jpg", "image/jpeg"), (".jpeg", "image/jpeg"), (".gif", "image/gif"),
   (".svg", "image/svg+xml"), (".pdf", "application/pdf"),
   (".xml", "text/xml"), (".ico", "image/vnd.microsoft.icon")]

/-- `mimetypes.guess_type(key)[0]`. -/
def guess_type (key : String) : Option String :=
  dictFind? types_map (extOf key)

/-- `mimetypes.guess_type(key)[0] or 'text/html'` (the guess is never
the empty string, so Python's `or` is exactly the `None` default). -/
def content_type (key : String) : String :=
  match guess_type key with
  | some t => t
  | none => "text/html"

/-! ### `upload_file` and `load_manifest` -/

/-- Python `==` between the string `self.manifest.get(key, '')` and the
`str`-or-`None` result of `gen_etag`: comparing a `str` with `None` is
`False`. -/
def pyStrEqOpt (s : String) (o : Option String) : Bool :=
  match o with
  | none => false
  | some t => s == t

/-- One invocation of `bucket.upload_file(path, key, ExtraArgs=...)`:
the transferred bytes, the destination key and the content type sent. -/
structure UploadCall where
  contents : List Nat
  key : String
  contentType : String
deriving DecidableEq

/-- The remote bucket: key → stored object bytes. -/
abbrev BucketState := List (String × List Nat)

/-- The manifest: key → stored fingerprint string. -/
abbrev Manifest := List (String × String)

/-- `BucketManager.upload_file`: computes the content type and the local
etag, skips when the manifest's entry for `key` (default `''`) equals
the etag, and otherwise transfers the file. Returns the manifest, the
bucket contents, and the list of transfer calls made. -/
def upload_file (m : Manifest) (b : BucketState) (file : List Nat)
    (key : String) : Manifest × BucketState × List UploadCall :=
  let ct := content_type key
  let etag := gen_etag file
  if pyStrEqOpt (dictGet m key "") etag then
    (m, b, [])
  else
    (m, dictInsert b key file, [⟨file, key, ct⟩])

/-- `BucketManager.load_manifest`: for every page of the paginated
listing, for every object on the page, `self.manifest[key] = etag`.
A page is its `Contents` list of `(Key, ETag)` pairs (`page.get(
'Contents', [])` makes a missing list the empty page). -/
def load_manifest (m : Manifest) (pages : List (List (String × String))) :
    Manifest :=
  pages.foldl (fun m page =>
    page.foldl (fun m kv => dictInsert m kv.1 kv.2) m) m

/-! ### `init_bucket` -/

/-- A `botocore` `ClientError`, identified by `response.Error.Code`. -/
structure ClientError where
  code : String
deriving DecidableEq

/-- `BucketManager.init_bucket`: the result of `s3.create_bucket` is
either a bucket or a `ClientError`; the error code
`'BucketAlreadyOwnedByYou'` is converted into the existing bucket
(`s3.Bucket(bucket_name)`, identified here by its name), every other
error is re-raised. -/
def init_bucket (bucket_name : String)
    (createResult : Except ClientError Unit) : Except ClientError String :=
  match createResult with
  | .ok _ => .ok bucket_name
  | .error e =>
      if e.code = "BucketAlreadyOwnedByYou" then .ok bucket_name
      else .error e

/-! ### `sync` and the directory walker -/

/-- An in-memory directory tree: each entry is a regular file with
contents or a subdirectory with its children in `iterdir()` order. -/
inductive Entry where
  | file (name : String) (contents : List Nat)
  | dir (name : String) (children : List Entry)

/-- `PurePath.relative_to`: strip the root prefix from a path given as
components (callers only pass paths extending `root`). -/
def relative_to (p root : List String) : List String :=
  p.drop root.length

/-- `str(p.relative_to(root))` on POSIX: components joined by `/`. -/
def syncKey (root p : List String) : String :=
  String.intercalate "/" (relative_to p root)

/-- `handle_directory`: depth-first traversal collecting every regular
file as (absolute path components, contents), recursing into
subdirectories inline, in `iterdir()` order. -/
def walkFiles (path : List String) : List Entry → List (List String × List Nat)
  | [] => []
  | Entry.dir name children :: rest =>
      walkFiles (path ++ [name]) children ++ walkFiles path rest
  | Entry.file name contents :: rest =>
      (path ++ [name], contents) :: walkFiles path rest

/-- One file of the sync run: `self.upload_file(bucket, str(p),
str(p.relative_to(root)))`, threading the manifest, the bucket contents
and the accumulated transfer calls. -/
def syncStep (root : List String)
    (acc : Manifest × BucketState × List UploadCall)
    (pc : List String × List Nat) :
    Manifest × BucketState × List UploadCall :=
  let step := upload_file acc.1 acc.2.1 pc.2 (syncKey root pc.1)
  (step.1, step.2.1, acc.2.2 ++ step.2.2)

/-- `BucketManager.sync`: loads the manifest from the remote listing
into the manager's manifest, then walks the tree rooted at `root` and
runs `upload_file` on each file with its root-relative key, in
traversal order. Returns the final manifest, bucket contents, and all
transfer calls in order. -/
def sync (m0 : Manifest) (b0 : BucketState)
    (pages : List (List (String × String))) (root : List String)
    (tree : List Entry) : Manifest × BucketState × List UploadCall :=
  (walkFiles root tree).foldl (syncStep root) (load_manifest m0 pages, b0, [])

/-- A 3-page, 2-keys-per-page remote listing (concrete test data). -/
def pages6 : List (List (String × String)) :=
  [[("a", "1"), ("b", "2")], [("c", "3"), ("d", "4")],
   [("e", "5"), ("f", "6")]]

/-! ### MD5 model sanity checks (RFC 1321 test vectors) -/

theorem md5_empty_vector :
    hexdigest (md5 []) = "d41d8cd98f00b204e9800998ecf8427e" := by decide

theorem md5_a_vector :
    hexdigest (md5 [97]) = "0cc175b9c0f1b6a831c399e269772661" := by decide

theorem md5_abc_vector :
    hexdigest (md5 [97, 98, 99]) = "900150983cd24fb0d6963f7d28e17f72" := by
  decide

/-! ### Chunking lemmas -/

theorem chunksOfAux_congr (n : Nat) (hn : 0 < n) :
    ∀ fuel1 fuel2 (s : List Nat), s.length ≤ fuel1 → s.length ≤ fuel2 →
      chunksOfAux n fuel1 s = chunksOfAux n fuel2 s := by
  intro fuel1
  induction fuel1 with
  | zero =>
      intro fuel2 s h1 _
      have hs : s = [] := List.eq_nil_of_length_eq_zero (Nat.le_zero.mp h1)
      subst hs
      cases fuel2 <;> rfl
  | succ f ih =>
      intro fuel2 s h1 h2
      cases s with
      | nil => cases fuel2 <;> rfl
      | cons a as =>
          cases fuel2 with
          | zero => simp at h2
          | succ f2 =>
              show (a :: as).take n :: chunksOfAux n f ((a :: as).drop n) =
                (a :: as).take n :: chunksOfAux n f2 ((a :: as).drop n)
              congr 1
              apply ih
              · rw [List.length_drop]
                simp only [List.length_cons] at h1 ⊢
                omega
              · rw [List.length_drop]
                simp only [List.length_cons] at h2 ⊢
                omega

theorem chunksOf_nil (n : Nat) : chunksOf n [] = [] := rfl

theorem chunksOf_cons (n : Nat) (hn : 0 < n) (s : List Nat) (hs : s ≠ []) :
    chunksOf n s = s.take n :: chunksOf n (s.drop n) := by
  obtain ⟨a, as, rfl⟩ := List.exists_cons_of_ne_nil hs
  show chunksOfAux n (as.length + 1) (a :: as) =
    (a :: as).take n :: chunksOf n ((a :: as).drop n)
  show (a :: as).take n :: chunksOfAux n as.length ((a :: as).drop n) = _
  congr 1
  apply chunksOfAux_congr n hn
  · rw [List.length_drop]
    simp only [List.length_cons]
    omega
  · exact Nat.le_refl _

theorem chunksOf_single (n : Nat) (hn : 0 < n) (s : List Nat) (hs : s ≠ [])
    (hlen : s.length ≤ n) : chunksOf n s = [s] := by
  rw [chunksOf_cons n hn s hs, List.take_of_length_le hlen,
    List.drop_eq_nil_of_le hlen, chunksOf_nil]

theorem chunksOf_length_mul (n : Nat) (hn : 0 < n) :
    ∀ (k : Nat) (s : List Nat), s.length = k * n →
      (chunksOf n s).length = k := by
  intro k
  induction k with
  | zero =>
      intro s hs
      have : s = [] := List.eq_nil_of_length_eq_zero (by simpa using hs)
      subst this
      rfl
  | succ k ih =>
      intro s hs
      have hpos : 0 < s.length := by rw [hs]; positivity
      have hne : s ≠ [] := List.ne_nil_of_length_pos hpos
      rw [chunksOf_cons n hn s hne, List.length_cons, ih (s.drop n) ?_]
      rw [List.length_drop, hs, Nat.succ_mul, Nat.add_sub_cancel]

theorem chunksOf_chunk_le (n : Nat) :
    ∀ fuel (s : List Nat), ∀ ch ∈ chunksOfAux n fuel s, ch.length ≤ n := by
  intro fuel
  induction fuel with
  | zero =>
      intro s ch h
      cases s <;> simp [chunksOfAux] at h
  | succ f ih =>
      intro s ch h
      cases s with
      | nil => simp [chunksOfAux] at h
      | cons a as =>
          rcases List.mem_cons.mp h with h1 | h2
          · subst h1
            exact List.length_take_le _ _
          · exact ih _ ch h2

/-! ### Concatenation of digests -/

theorem foldl_append_eq (ds : List (List Nat)) :
    ∀ init, ds.foldl (fun x y => x ++ y) init = init ++ ds.flatten := by
  induction ds with
  | nil => intro init; simp
  | cons d ds ih =>
      intro init
      rw [List.foldl_cons, ih, List.flatten_cons, List.append_assoc]

theorem reduceConcat_eq_flatten (l : List (List Nat)) (h : l ≠ []) :
    reduceConcat l = l.flatten := by
  obtain ⟨d, ds, rfl⟩ := List.exists_cons_of_ne_nil h
  show ds.foldl (fun x y => x ++ y) d = (d :: ds).flatten
  rw [foldl_append_eq, List.flatten_cons]

/-! ### `gen_etag` branch lemmas -/

theorem gen_etag_nil : gen_etag [] = none := rfl

theorem CHUNK_SIZE_pos : 0 < CHUNK_SIZE := by decide

theorem gen_etag_single (s : List Nat) (hs : s ≠ [])
    (hlen : s.length ≤ CHUNK_SIZE) :
    gen_etag s = some ("\"" ++ hexdigest (md5 s) ++ "\"") := by
  simp only [gen_etag, chunksOf_single CHUNK_SIZE CHUNK_SIZE_pos s hs hlen,
    List.map_cons, List.map_nil, List.length_cons, List.length_nil,
    List.headD_cons]
  rfl

theorem gen_etag_multi (s : List Nat)
    (h : 1 < (chunksOf CHUNK_SIZE s).length) :
    gen_etag s = some ("\"" ++
      hexdigest (md5 ((chunksOf CHUNK_SIZE s).map md5).flatten) ++ "-" ++
      toString (chunksOf CHUNK_SIZE s).length ++ "\"") := by
  have hm : ((chunksOf CHUNK_SIZE s).map hash_data).length =
      (chunksOf CHUNK_SIZE s).length := List.length_map _ _
  have h0 : ¬(chunksOf CHUNK_SIZE s).length = 0 := by omega
  have h1 : ¬(chunksOf CHUNK_SIZE s).length = 1 := by omega
  have hne : (chunksOf CHUNK_SIZE s).map hash_data ≠ [] := by
    intro hh
    have hl := congrArg List.length hh
    rw [hm, List.length_nil] at hl
    omega
  simp only [gen_etag, hm, if_neg h0, if_neg h1,
    reduceConcat_eq_flatten _ hne]
  rfl

theorem string_append_ne_empty_left (a b : String) (ha : a ≠ "") :
    a ++ b ≠ "" := by
  intro h
  have hd := congrArg String.data h
  rw [String.data_append] at hd
  rcases List.append_eq_nil.mp hd with ⟨h1, _⟩
  apply ha
  cases a with
  | mk data => cases h1; rfl

theorem gen_etag_ne_some_empty (s : List Nat) (t : String)
    (h : gen_etag s = some t) : t ≠ "" := by
  have hq : "\"" ≠ "" := by decide
  simp only [gen_etag] at h
  split at h
  · exact absurd h (by simp)
  · split at h
    · rw [Option.some_inj] at h
      subst h
      exact string_append_ne_empty_left _ _
        (string_append_ne_empty_left _ _ hq)
    · rw [Option.some_inj] at h
      subst h
      exact string_append_ne_empty_left _ _
        (string_append_ne_empty_left _ _
          (string_append_ne_empty_left _ _
            (string_append_ne_empty_left _ _ hq)))

/-! ### Dict lemmas -/

theorem dictFind?_insert_self {α : Type} (m : List (String × α)) (k : String)
    (v : α) : dictFind? (dictInsert m k v) k = some v := by
  induction m with
  | nil => simp [dictInsert, dictFind?]
  | cons kv rest ih =>
      by_cases h : kv.1 = k
      · simp [dictInsert, dictFind?, h]
      · simp [dictInsert, dictFind?, h, ih]

theorem dictFind?_insert_ne {α : Type} (m : List (String × α)) (k' k : String)
    (v : α) (h : k' ≠ k) :
    dictFind? (dictInsert m k' v) k = dictFind? m k := by
  induction m with
  | nil => simp [dictInsert, dictFind?, h]
  | cons kv rest ih =>
      by_cases hk : kv.1 = k'
      · simp only [dictInsert, if_pos hk, dictFind?, hk, if_neg h]
      · simp only [dictInsert, if_neg hk, dictFind?, ih]

theorem length_dictInsert_of_find_none {α : Type} (m : List (String × α))
    (k : String) (v : α) (h : dictFind? m k = none) :
    (dictInsert m k v).length = m.length + 1 := by
  induction m with
  | nil => rfl
  | cons kv rest ih =>
      simp only [dictFind?] at h
      split at h
      · exact absurd h (by simp)
      · rename_i hk
        simp only [dictInsert, if_neg hk, List.length_cons, ih h]

theorem dictFind?_foldl_insert_of_not_mem {α : Type}
    (kvs : List (String × α)) (k : String)
    (h : k ∉ kvs.map Prod.fst) :
    ∀ m, dictFind? (kvs.foldl (fun m kv => dictInsert m kv.1 kv.2) m) k =
      dictFind? m k := by
  induction kvs with
  | nil => intro m; rfl
  | cons kv rest ih =>
      intro m
      simp only [List.map_cons, List.mem_cons] at h
      push_neg at h
      rw [List.foldl_cons, ih h.2, dictFind?_insert_ne _ _ _ _ (fun hh => h.1 hh.symm)]

theorem dictFind?_foldl_insert_mem {α : Type} (kvs : List (String × α))
    (k : String) (fp : α) (hnd : (kvs.map Prod.fst).Nodup)
    (hmem : (k, fp) ∈ kvs) :
    ∀ m, dictFind? (kvs.foldl (fun m kv => dictInsert m kv.1 kv.2) m) k =
      some fp := by
  induction kvs with
  | nil => cases hmem
  | cons kv rest ih =>
      intro m
      rw [List.map_cons, List.nodup_cons] at hnd
      rw [List.foldl_cons]
      rcases List.mem_cons.mp hmem with heq | hrest
      · have hk : kv.1 = k := by rw [← heq]
        have hv : kv.2 = fp := by rw [← heq]
        rw [dictFind?_foldl_insert_of_not_mem _ _ (hk ▸ hnd.1), hk, hv,
          dictFind?_insert_self]
      · exact ih hnd.2 hrest _

theorem length_foldl_insert {α : Type} (kvs : List (String × α)) :
    ∀ m, (kvs.map Prod.fst).Nodup →
      (∀ key ∈ kvs.map Prod.fst, dictFind? m key = none) →
      (kvs.foldl (fun m kv => dictInsert m kv.1 kv.2) m).length =
        m.length + kvs.length := by
  induction kvs with
  | nil => intro m _ _; simp
  | cons kv rest ih =>
      intro m hnd hdisj
      rw [List.map_cons, List.nodup_cons] at hnd
      rw [List.foldl_cons, ih _ hnd.2 ?_, length_dictInsert_of_find_none _ _ _
        (hdisj kv.1 (by simp)), List.length_cons]
      · omega
      · intro key hkey
        have hne : kv.1 ≠ key := fun hh => hnd.1 (hh ▸ hkey)
        rw [dictFind?_insert_ne _ _ _ _ hne]
        exact hdisj key (by simp [hkey])

theorem load_manifest_eq (pages : List (List (String × String))) :
    ∀ m, load_manifest m pages =
      pages.flatten.foldl (fun m kv => dictInsert m kv.1 kv.2) m := by
  induction pages with
  | nil => intro m; rfl
  | cons p ps ih =>
      intro m
      simp only [load_manifest, List.foldl_cons] at ih ⊢
      rw [List.flatten_cons, List.foldl_append]
      exact ih _

/-! ### `upload_file`, `sync` and walker lemmas -/

theorem upload_file_fst (m : Manifest) (b : BucketState) (file : List Nat)
    (key : String) : (upload_file m b file key).1 = m := by
  simp only [upload_file]
  split <;> rfl

theorem upload_file_calls (m : Manifest) (b : BucketState) (file : List Nat)
    (key : String) :
    (upload_file m b file key).2.2 = [] ∨
    (upload_file m b file key).2.2 = [⟨file, key, content_type key⟩] := by
  simp only [upload_file]
  split
  · exact Or.inl rfl
  · exact Or.inr rfl

theorem upload_file_calls_mem (m : Manifest) (b : BucketState)
    (file : List Nat) (key : String) (call : UploadCall)
    (h : call ∈ (upload_file m b file key).2.2) :
    call = ⟨file, key, content_type key⟩ := by
  rcases upload_file_calls m b file key with hc | hc
  · rw [hc] at h
    exact absurd h (List.not_mem_nil call)
  · rw [hc] at h
    exact List.mem_singleton.mp h

theorem foldl_syncStep_fst (root : List String)
    (files : List (List String × List Nat)) :
    ∀ acc, (files.foldl (syncStep root) acc).1 = acc.1 := by
  induction files with
  | nil => intro acc; rfl
  | cons f fs ih =>
      intro acc
      rw [List.foldl_cons, ih]
      show (upload_file acc.1 acc.2.1 f.2 (syncKey root f.1)).1 = acc.1
      exact upload_file_fst _ _ _ _

theorem foldl_syncStep_calls (root : List String)
    (files : List (List String × List Nat)) :
    ∀ acc call, call ∈ (files.foldl (syncStep root) acc).2.2 →
      call ∈ acc.2.2 ∨ ∃ pc ∈ files,
        call = ⟨pc.2, syncKey root pc.1, content_type (syncKey root pc.1)⟩ := by
  induction files with
  | nil => intro acc call h; exact Or.inl h
  | cons f fs ih =>
      intro acc call h
      rw [List.foldl_cons] at h
      rcases ih _ call h with hacc | ⟨pc, hpc, hcall⟩
      · have hacc' : call ∈ acc.2.2 ++
            (upload_file acc.1 acc.2.1 f.2 (syncKey root f.1)).2.2 := hacc
        rcases List.mem_append.mp hacc' with h1 | h2
        · exact Or.inl h1
        · exact Or.inr ⟨f, List.mem_cons_self f fs,
            upload_file_calls_mem _ _ _ _ _ h2⟩
      · exact Or.inr ⟨pc, List.mem_cons_of_mem f hpc, hcall⟩

theorem walkFiles_shape (path : List String) (tree : List Entry) :
    ∀ p c, (p, c) ∈ walkFiles path tree →
      ∃ rel, rel ≠ [] ∧ p = path ++ rel := by
  induction path, tree using walkFiles.induct with
  | case1 path =>
      intro p c h
      simp [walkFiles] at h
  | case2 path name children rest ih1 ih2 =>
      intro p c h
      simp only [walkFiles] at h
      rcases List.mem_append.mp h with h1 | h2
      · obtain ⟨rel, hne, hp⟩ := ih1 p c h1
        refine ⟨name :: rel, by simp, ?_⟩
        rw [hp, List.append_assoc]
        rfl
      · exact ih2 p c h2
  | case3 path name contents rest ih =>
      intro p c h
      simp only [walkFiles] at h
      rcases List.mem_cons.mp h with h1 | h2
      · have hp : p = path ++ [name] := congrArg Prod.fst h1
        exact ⟨[name], by simp, hp⟩
      · exact ih p c h2

/-! ### Claim theorems -/

theorem string_dash_two (x : String) :
    ((x ++ "-") ++ "2") ++ "\"" = x ++ "-2\"" := by
  rw [String.append_assoc, String.append_assoc]
  congr 1

/-- Claim C1: for every byte stream that splits into n > 1 chunks of
size at most 8,388,608 bytes, `gen_etag` produces a double quote, the
hex encoding of the md5 digest of the concatenation of the raw binary
md5 digests of the chunks in order, a dash, the decimal part count n,
and a closing double quote. -/
theorem gen_etag_multipart_law (s : List Nat)
    (h : 1 < (chunksOf CHUNK_SIZE s).length) :
    gen_etag s = some ("\"" ++
      hexdigest (md5 ((chunksOf CHUNK_SIZE s).map md5).flatten) ++ "-" ++
      toString (chunksOf CHUNK_SIZE s).length ++ "\"") ∧
    ∀ ch ∈ chunksOf CHUNK_SIZE s, ch.length ≤ CHUNK_SIZE :=
  ⟨gen_etag_multi s h, fun ch hch => chunksOf_chunk_le CHUNK_SIZE _ s ch hch⟩

/-- Witness for C1 at the 2·CHUNK_SIZE zero-filled stream. -/
theorem gen_etag_multipart_law_witness :
    1 < (chunksOf CHUNK_SIZE (List.replicate (2 * CHUNK_SIZE) 0)).length ∧
    gen_etag (List.replicate (2 * CHUNK_SIZE) 0) = some ("\"" ++
      hexdigest (md5 (((chunksOf CHUNK_SIZE
        (List.replicate (2 * CHUNK_SIZE) 0)).map md5).flatten)) ++ "-" ++
      toString (chunksOf CHUNK_SIZE
        (List.replicate (2 * CHUNK_SIZE) 0)).length ++ "\"") :=
  have h2 : (chunksOf CHUNK_SIZE
      (List.replicate (2 * CHUNK_SIZE) 0)).length = 2 :=
    chunksOf_length_mul CHUNK_SIZE CHUNK_SIZE_pos 2 _
      (by simp [List.length_replicate])
  have h : 1 < (chunksOf CHUNK_SIZE
      (List.replicate (2 * CHUNK_SIZE) 0)).length := by omega
  ⟨h, (gen_etag_multipart_law _ h).1⟩

/-- Claim C2: a nonempty stream of at most `CHUNK_SIZE` bytes is read
as one chunk and fingerprinted as the quoted hex md5 of the whole
stream (for the one-byte stream `"a"` this is
`"0cc175b9c0f1b6a831c399e269772661"` with the quotes), and a stream of
exactly k·CHUNK_SIZE bytes is read as exactly k chunks with no trailing
empty chunk, the 2·CHUNK_SIZE zero stream's fingerprint ending in `-2`
before the closing quote. -/
theorem gen_etag_single_and_boundary (s : List Nat) (h1 : 0 < s.length)
    (h2 : s.length ≤ CHUNK_SIZE) (k : Nat) (t : List Nat) (_hk : 0 < k)
    (ht : t.length = k * CHUNK_SIZE) :
    gen_etag s = some ("\"" ++ hexdigest (md5 s) ++ "\"") ∧
    gen_etag [97] = some "\"0cc175b9c0f1b6a831c399e269772661\"" ∧
    (chunksOf CHUNK_SIZE t).length = k ∧
    ∃ hex, gen_etag (List.replicate (2 * CHUNK_SIZE) 0) =
      some ("\"" ++ hex ++ "-2\"") := by
  refine ⟨gen_etag_single s (List.ne_nil_of_length_pos h1) h2, by decide,
    chunksOf_length_mul CHUNK_SIZE CHUNK_SIZE_pos k t ht, ?_⟩
  have hlen : (chunksOf CHUNK_SIZE
      (List.replicate (2 * CHUNK_SIZE) 0)).length = 2 :=
    chunksOf_length_mul CHUNK_SIZE CHUNK_SIZE_pos 2 _
      (by simp [List.length_replicate])
  refine ⟨hexdigest (md5 (((chunksOf CHUNK_SIZE
    (List.replicate (2 * CHUNK_SIZE) 0)).map md5).flatten)), ?_⟩
  rw [gen_etag_multi _ (by omega), hlen]
  rw [show toString 2 = "2" from rfl, string_dash_two]

/-- Witness for C2 at the one-byte stream `"a"` and at k = 2 with the
2·CHUNK_SIZE zero-filled stream. -/
theorem gen_etag_single_and_boundary_witness :
    (0 < ([97] : List Nat).length ∧ ([97] : List Nat).length ≤ CHUNK_SIZE ∧
      0 < 2 ∧ (List.replicate (2 * CHUNK_SIZE) (0 : Nat)).length =
        2 * CHUNK_SIZE) ∧
    gen_etag [97] = some "\"0cc175b9c0f1b6a831c399e269772661\"" ∧
    (chunksOf CHUNK_SIZE (List.replicate (2 * CHUNK_SIZE) 0)).length = 2 :=
  have hrep : (List.replicate (2 * CHUNK_SIZE) (0 : Nat)).length =
      2 * CHUNK_SIZE := by simp [List.length_replicate]
  have h := gen_etag_single_and_boundary [97] (by decide) (by decide)
    2 (List.replicate (2 * CHUNK_SIZE) 0) (by decide) hrep
  ⟨⟨by decide, by decide, by decide, hrep⟩, h.2.1, h.2.2.1⟩

/-- Claim C3: `upload_file` skips a file (no transfer call) exactly when
the manifest's stored fingerprint for the key is string-equal to the
locally computed fingerprint; when the key is absent or the strings are
unequal the file is transferred (exactly one upload call). -/
theorem upload_skip_iff_exact_match (m : Manifest) (b : BucketState)
    (file : List Nat) (key : String) :
    ((upload_file m b file key).2.2 = [] ↔
      ∃ fp, dictFind? m key = some fp ∧ gen_etag file = some fp) ∧
    ((upload_file m b file key).2.2 = [] ∨
      (upload_file m b file key).2.2 = [⟨file, key, content_type key⟩]) := by
  refine ⟨?_, upload_file_calls m b file key⟩
  simp only [upload_file]
  split
  · rename_i hcond
    constructor
    · intro _
      cases hE : gen_etag file with
      | none =>
          rw [hE] at hcond
          exact absurd hcond (by simp [pyStrEqOpt])
      | some fp =>
          rw [hE] at hcond
          simp only [pyStrEqOpt, beq_iff_eq, dictGet] at hcond
          cases hF : dictFind? m key with
          | none =>
              rw [hF] at hcond
              simp only [Option.getD_none] at hcond
              exact absurd hcond.symm (gen_etag_ne_some_empty file fp hE)
          | some v =>
              rw [hF] at hcond
              simp only [Option.getD_some] at hcond
              subst hcond
              exact ⟨v, rfl, rfl⟩
    · intro _
      rfl
  · rename_i hcond
    constructor
    · intro hfalse
      exact absurd hfalse (List.cons_ne_nil _ _)
    · rintro ⟨fp, hF, hE⟩
      exfalso
      apply hcond
      simp [pyStrEqOpt, dictGet, hF, hE]

/-- Claim C4: the empty stream yields no fingerprint (`gen_etag`
returns `None`), and `upload_file` always transfers an empty file —
the manifest comparison never treats it as equal. -/
theorem empty_stream_always_uploaded (m : Manifest) (b : BucketState)
    (key : String) :
    gen_etag [] = none ∧
    upload_file m b [] key =
      (m, dictInsert b key [], [⟨[], key, content_type key⟩]) := by
  refine ⟨rfl, ?_⟩
  simp only [upload_file, gen_etag_nil, pyStrEqOpt]
  rfl

/-- Claim C5: `load_manifest` follows every page of the paginated
listing until exhausted; with the bucket's keys unique across the
listing, the resulting manifest maps every `(key, fingerprint)` pair of
every page to its fingerprint, and a fresh manifest has exactly one
entry per listed object (3 pages of 2 keys yield all 6 entries). -/
theorem load_manifest_complete (pages : List (List (String × String)))
    (page : List (String × String)) (k fp : String)
    (hnd : (pages.flatten.map Prod.fst).Nodup)
    (hp : page ∈ pages) (hkv : (k, fp) ∈ page) :
    dictFind? (load_manifest [] pages) k = some fp ∧
    (load_manifest [] pages).length = pages.flatten.length := by
  constructor
  · rw [load_manifest_eq]
    exact dictFind?_foldl_insert_mem _ k fp hnd
      (List.mem_flatten.mpr ⟨page, hp, hkv⟩) []
  · rw [load_manifest_eq, length_foldl_insert _ [] hnd (fun key _ => rfl)]
    simp

/-- Witness for C5: 3 pages of 2 keys each yield all 6 entries. -/
theorem load_manifest_complete_witness :
    ((pages6.flatten.map Prod.fst).Nodup ∧
      [("a", "1"), ("b", "2")] ∈ pages6 ∧
      (("a", "1") : String × String) ∈ [("a", "1"), ("b", "2")]) ∧
    dictFind? (load_manifest [] pages6) "a" = some "1" ∧
    (load_manifest [] pages6).length = 6 :=
  have h := load_manifest_complete pages6 [("a", "1"), ("b", "2")] "a" "1"
    (by decide) (by decide) (by decide)
  ⟨⟨by decide, by decide, by decide⟩, h.1, by rw [h.2]; decide⟩

/-- Claim C6 counterexample: with a manifest entry left over from an
earlier sync run on the same manager and an empty remote listing, the
manifest used by the next run still contains the stale entry (a fresh
manifest built from the listing alone would not), and the stale entry
makes that run skip a matching local file instead of uploading it. -/
theorem manifest_persists_counterexample :
    dictFind? (load_manifest
        [("old", "\"0cc175b9c0f1b6a831c399e269772661\"")] []) "old" =
      some "\"0cc175b9c0f1b6a831c399e269772661\"" ∧
    dictFind? (load_manifest [] ([] : List (List (String × String))))
      "old" = none ∧
    (sync [("old", "\"0cc175b9c0f1b6a831c399e269772661\"")] [] [] ["r"]
        [Entry.file "old" [97]]).2.2 = [] := by
  refine ⟨rfl, rfl, ?_⟩
  have hw : walkFiles ["r"] [Entry.file "old" [97]] =
      [(["r", "old"], [97])] := by simp [walkFiles]
  simp only [sync, hw, List.foldl_cons, List.foldl_nil]
  decide

/-- Claim C6 amended: `load_manifest` merges the remote listing into
the manager's persistent manifest, so entries from earlier sync runs on
the same manager remain visible unless the current listing overwrites
them; during the rest of the run the manifest is only read, never
written (the run's final manifest is exactly the loaded one). -/
theorem manifest_merge_read_only (prev : Manifest) (b0 : BucketState)
    (pages : List (List (String × String))) (root : List String)
    (tree : List Entry) (k fp : String)
    (h1 : dictFind? prev k = some fp)
    (h2 : k ∉ pages.flatten.map Prod.fst) :
    dictFind? (load_manifest prev pages) k = some fp ∧
    (sync prev b0 pages root tree).1 = load_manifest prev pages := by
  constructor
  · rw [load_manifest_eq, dictFind?_foldl_insert_of_not_mem _ _ h2]
    exact h1
  · exact foldl_syncStep_fst root _ _

/-- Witness for C6 amended: a stale entry survives a listing that does
not mention its key, and the sync run never writes the manifest. -/
theorem manifest_merge_read_only_witness :
    (dictFind? [("old", "x")] "old" = some "x" ∧
      "old" ∉ ([[("a", "1")]] :
        List (List (String × String))).flatten.map Prod.fst) ∧
    dictFind? (load_manifest [("old", "x")] [[("a", "1")]]) "old" =
      some "x" ∧
    (sync [("old", "x")] [] [[("a", "1")]] ["r"] []).1 =
      load_manifest [("old", "x")] [[("a", "1")]] :=
  have h := manifest_merge_read_only [("old", "x")] [] [[("a", "1")]]
    ["r"] [] "old" "x" rfl (by decide)
  ⟨⟨rfl, by decide⟩, h.1, h.2⟩

/-- Claim C7: every transfer call of a sync run targets the key built
from the file's path relative to the root — root prefix stripped and
components joined with forward slashes — and the concrete file at
`root/sub/dir/a.txt` synced from `root` gets key `sub/dir/a.txt`, which
has no leading slash. -/
theorem sync_key_relative (m0 : Manifest) (b0 : BucketState)
    (pages : List (List (String × String))) (root : List String)
    (tree : List Entry) (call : UploadCall)
    (h : call ∈ (sync m0 b0 pages root tree).2.2) :
    (∃ p c, (p, c) ∈ walkFiles root tree ∧ p.take root.length = root ∧
      call.key = String.intercalate "/" (p.drop root.length)) ∧
    syncKey ["root"] ["root", "sub", "dir", "a.txt"] = "sub/dir/a.txt" ∧
    "sub/dir/a.txt".data.head? ≠ some '/' := by
  refine ⟨?_, by decide, by decide⟩
  rcases foldl_syncStep_calls root _ _ call h with hmem | ⟨pc, hpc, hcall⟩
  · exact absurd hmem (List.not_mem_nil call)
  · obtain ⟨rel, _hne, hp⟩ := walkFiles_shape root tree pc.1 pc.2 hpc
    refine ⟨pc.1, pc.2, hpc, ?_, ?_⟩
    · rw [hp]
      exact List.take_left root rel
    · rw [hcall]
      rfl

/-- Witness for C7: syncing `root/sub/dir/a.txt` produces an upload
call whose key is `sub/dir/a.txt`. -/
theorem sync_key_relative_witness :
    ((⟨[97], "sub/dir/a.txt", "text/plain"⟩ : UploadCall) ∈
      (sync [] [] [] ["root"]
        [Entry.dir "sub" [Entry.dir "dir" [Entry.file "a.txt" [97]]]]).2.2) ∧
    ((∃ p c, (p, c) ∈ walkFiles ["root"]
        [Entry.dir "sub" [Entry.dir "dir" [Entry.file "a.txt" [97]]]] ∧
        p.take 1 = ["root"] ∧
        (⟨[97], "sub/dir/a.txt", "text/plain"⟩ : UploadCall).key =
          String.intercalate "/" (p.drop 1)) ∧
      syncKey ["root"] ["root", "sub", "dir", "a.txt"] = "sub/dir/a.txt" ∧
      "sub/dir/a.txt".data.head? ≠ some '/') :=
  have hmem : (⟨[97], "sub/dir/a.txt", "text/plain"⟩ : UploadCall) ∈
      (sync [] [] [] ["root"]
        [Entry.dir "sub" [Entry.dir "dir" [Entry.file "a.txt" [97]]]]).2.2 := by
    have hw : walkFiles ["root"]
        [Entry.dir "sub" [Entry.dir "dir" [Entry.file "a.txt" [97]]]] =
        [(["root", "sub", "dir", "a.txt"], [97])] := by simp [walkFiles]
    simp only [sync, hw, List.foldl_cons, List.foldl_nil]
    decide
  ⟨hmem, sync_key_relative [] [] [] ["root"] _ _ hmem⟩

/-- Claim C8: `init_bucket` treats the provider error code
`BucketAlreadyOwnedByYou` as success, returning a handle to the
existing bucket (so creating the same bucket twice succeeds both
times), and re-raises every other create error verbatim. -/
theorem init_bucket_idempotent (name : String) (e : ClientError)
    (h : e.code ≠ "BucketAlreadyOwnedByYou") :
    init_bucket name (Except.ok ()) = Except.ok name ∧
    init_bucket name (Except.error ⟨"BucketAlreadyOwnedByYou"⟩) =
      Except.ok name ∧
    init_bucket name (Except.error e) = Except.error e := by
  refine ⟨rfl, by simp [init_bucket], ?_⟩
  simp [init_bucket, h]

/-- Witness for C8 at a bucket name and a distinct error code. -/
theorem init_bucket_idempotent_witness :
    (("AccessDenied" : String) ≠ "BucketAlreadyOwnedByYou") ∧
    init_bucket "assets" (Except.ok ()) = Except.ok "assets" ∧
    init_bucket "assets" (Except.error ⟨"BucketAlreadyOwnedByYou"⟩) =
      Except.ok "assets" ∧
    init_bucket "assets" (Except.error ⟨"AccessDenied"⟩) =
      Except.error ⟨"AccessDenied"⟩ :=
  have h := init_bucket_idempotent "assets" ⟨"AccessDenied"⟩ (by decide)
  ⟨by decide, h.1, h.2.1, h.2.2⟩

/-- Claim C9: the content type sent with every upload is derived from
the destination key's filename extension — `content_type` returns the
table entry for the key's extension and agrees on any two keys with
equal extensions — and defaults to the generic `text/html` when the
extension has no mapping. -/
theorem content_type_from_extension (m : Manifest) (b : BucketState)
    (file : List Nat) (k1 k2 t : String)
    (hext : extOf k1 = extOf k2)
    (ht : dictFind? types_map (extOf k1) = some t) :
    (∀ call ∈ (upload_file m b file k1).2.2,
      call.contentType = content_type k1) ∧
    content_type k1 = t ∧
    content_type k1 = content_type k2 ∧
    ∀ k : String, dictFind? types_map (extOf k) = none →
      content_type k = "text/html" := by
  refine ⟨?_, ?_, ?_, ?_⟩
  · intro call hc
    rw [upload_file_calls_mem m b file k1 call hc]
  · simp [content_type, guess_type, ht]
  · simp [content_type, guess_type, hext]
  · intro k hk
    simp [content_type, guess_type, hk]

/-- Witness for C9: `site/Page.HTML` and `other.html` share extension
`.html` and map to `text/html`. -/
theorem content_type_from_extension_witness :
    (extOf "site/Page.HTML" = extOf "other.html" ∧
      dictFind? types_map (extOf "site/Page.HTML") = some "text/html") ∧
    content_type "site/Page.HTML" = "text/html" ∧
    content_type "site/Page.HTML" = content_type "other.html" :=
  have h := content_type_from_extension [] [] [97] "site/Page.HTML"
    "other.html" "text/html" (by decide) (by decide)
  ⟨⟨by decide, by decide⟩, h.2.1, h.2.2.1⟩

/-- Claim C10: when the locally computed fingerprint equals the
manifest entry for the key, `upload_file` returns without any transfer
call and leaves the manifest and the remote bucket state completely
unchanged. -/
theorem skip_branch_noop (m : Manifest) (b : BucketState)
    (file : List Nat) (key fp : String)
    (h1 : dictFind? m key = some fp) (h2 : gen_etag file = some fp) :
    upload_file m b file key = (m, b, []) := by
  simp only [upload_file, h2, dictGet, h1, Option.getD_some]
  simp [pyStrEqOpt]

/-- Witness for C10 at the one-byte file `"a"` and its quoted md5. -/
theorem skip_branch_noop_witness :
    (dictFind? [("k", "\"0cc175b9c0f1b6a831c399e269772661\"")] "k" =
        some "\"0cc175b9c0f1b6a831c399e269772661\"" ∧
      gen_etag [97] = some "\"0cc175b9c0f1b6a831c399e269772661\"") ∧
    upload_file [("k", "\"0cc175b9c0f1b6a831c399e269772661\"")] [] [97]
        "k" = ([("k", "\"0cc175b9c0f1b6a831c399e269772661\"")], [], []) :=
  have hE : gen_etag [97] = some "\"0cc175b9c0f1b6a831c399e269772661\"" :=
    by decide
  ⟨⟨rfl, hE⟩, skip_branch_noop _ _ _ _ _ rfl hE⟩

/-! ### `mimetypes` model sanity checks -/

theorem extOf_lowercases : extOf "a/b/c.HTML" = ".html" := by decide

theorem extOf_dot_in_dir : extOf "a.b/c" = "" := by decide

theorem extOf_hidden_file : extOf ".bashrc" = "" := by decide

theorem content_type_png : content_type "x/y.png" = "image/png" := by decide

theorem content_type_default : content_type "noext" = "text/html" := by
  decide

end Webotron
